import Mathlib

/-!
Verification of the `site-packages` utility repository.

The Python 2 sources (`root_utilities.py`, `list_utilities.py`,
`general_utilities.py`, `password_gen.py`) are shallowly embedded below:
pure helpers become Lean functions, Python exceptions become `Except`
results, mutation of a function attribute becomes explicit state passing,
and Python numbers are modelled as exact rationals (`ℚ`) with `pyInt`
for Python's `int(...)` truncation toward zero.
-/

namespace SitePackages

/-- The Python exceptions that the embedded code can raise, plus ROOT's own
`ROOTException` defined in `root_utilities.py`. -/
inductive PyError where
  | zeroDivisionError
  | typeError
  | indexError
  | nameError
  | rootException (msg : String)
  deriving Repr, DecidableEq

/-- Python's `int(x)` on a real number: truncation toward zero, i.e. the
floor for a non-negative argument and the ceiling for a negative one. -/
def pyInt (q : ℚ) : ℤ := if 0 ≤ q then ⌊q⌋ else ⌈q⌉

/-- Model of a one-dimensional ROOT histogram (`TH1`): the bin count, the
axis range, the contents of bins `1 .. nbins`, and the overflow bin.
Under/overflow of the axis itself is not needed by any claim. -/
structure Hist1D where
  nbins : ℕ
  xmin : ℚ
  xmax : ℚ
  contents : List ℚ
  overflow : ℚ
  deriving Repr, DecidableEq

/-- ROOT's `TH1::Rebin(ngroup, newname)`: merge each group of `ngroup`
adjacent bins into one.  The new bin count is `nbins / ngroup` (integer
division); when `ngroup` does not divide `nbins` the upper axis limit is
lowered to the edge of the last complete group and the content of the
left-over top bins is added to the overflow bin.  For `ngroup <= 0` or
`ngroup > nbins` ROOT reports an error and returns a null pointer,
modelled as `none`. -/
def rootRebin (h : Hist1D) (ngroup : ℤ) : Option Hist1D :=
  if ngroup ≤ 0 ∨ (h.nbins : ℤ) < ngroup then none
  else
    let g := ngroup.toNat
    let newbins := h.nbins / g
    let binWidth := (h.xmax - h.xmin) / (h.nbins : ℚ)
    some { nbins := newbins
           xmin := h.xmin
           xmax := h.xmin + ((newbins * g : ℕ) : ℚ) * binWidth
           contents := (List.range newbins).map
             (fun i => ((h.contents.drop (i * g)).take g).sum)
           overflow := h.overflow + (h.contents.drop (newbins * g)).sum }

/-- Model of `rebin_bin_width(hist, bin_width, new_name)` from
`root_utilities.py`:
returns the histogram unchanged when `bin_width == 0`, otherwise calls
`hist.Rebin(bin_width, new_name)` — i.e. it passes `bin_width` where ROOT
expects a group count. -/
def rebin_bin_width (h : Hist1D) (bin_width : ℤ) : Option Hist1D :=
  if bin_width = 0 then some h
  else rootRebin h bin_width

/-- Model of `rebin_nbins(hist, n_bins, new_name)` from `root_utilities.py`.
For `n_bins == 0` the histogram is returned unchanged.  Otherwise
`new_bin_width = int(float(xmax - xmin)/n_bins)` is computed (exact
rational division here; the Python float detour is value-preserving for
the integral inputs of every claim), then the source evaluates
`hist.GetNbinsX() % new_bin_width`, which raises `ZeroDivisionError`
when `new_bin_width` is zero (the result of the modulo only feeds a
printed warning, which has no observable effect modelled here), and
finally `rebin_bin_width` is called. -/
def rebin_nbins (h : Hist1D) (n_bins : ℤ) : Except PyError (Option Hist1D) :=
  if n_bins = 0 then .ok (some h)
  else
    let new_bin_width := pyInt ((h.xmax - h.xmin) / (n_bins : ℚ))
    if new_bin_width = 0 then .error .zeroDivisionError
    else .ok (rebin_bin_width h new_bin_width)

/-- A concrete histogram with 4 bins of width 1/2 over the axis `[0, 2]`,
each holding content 1. -/
def c1Hist : Hist1D :=
  { nbins := 4, xmin := 0, xmax := 2, contents := [1, 1, 1, 1], overflow := 0 }

/-- Claim C1, evaluated on the code at the failing input `c1Hist` (4 bins of
width 1/2): `rebin_nbins(c1Hist, 2)` is claimed to return a histogram with
exactly 2 bins, but the code computes `new_bin_width = int((2 - 0)/2) = 1`
and calls `Rebin(1)`, which merges groups of one bin and returns the
histogram still with 4 bins — the code passes an axis width where ROOT
expects a bin-group count; and `rebin_nbins(c1Hist, 3)` raises
`ZeroDivisionError` (from `GetNbinsX() % 0`) instead of returning a
3-bin histogram. -/
theorem rebin_nbins_c1_failing_input :
    rebin_nbins c1Hist 2 =
      .ok (some { nbins := 4, xmin := 0, xmax := 2,
                  contents := [1, 1, 1, 1], overflow := 0 }) ∧
    rebin_nbins c1Hist 3 = .error .zeroDivisionError := by
  constructor <;>
    norm_num [rebin_nbins, c1Hist, pyInt, rebin_bin_width, rootRebin,
      List.range_succ, List.sum_cons]

/-- A numeric argument of `make_hist`: either a single number or an
indexable object of numbers (`mins`, `maxs` and `bins` may each be
supplied either way; the code tests `hasattr(x, '__len__')`). -/
inductive PyNum where
  | scalar (q : ℚ)
  | vec (qs : List ℚ)
  deriving Repr, DecidableEq

/-- Models `x if not hasattr(x, '__len__') else x[d]`: a scalar is used as is, an
indexable object is indexed (raising `IndexError` when too short). -/
def pyIndex (v : PyNum) (d : ℕ) : Except PyError ℚ :=
  match v with
  | .scalar q => .ok q
  | .vec qs =>
      match qs.get? d with
      | some q => .ok q
      | none => .error .indexError

/-- The effective value of a `make_hist` numeric argument on axis `d`
(the scalar itself, or component `d`; out-of-range defaults to `0`, a
case excluded by the well-sizedness hypotheses wherever this is used). -/
def effAt (v : PyNum) (d : ℕ) : ℚ :=
  match v with
  | .scalar q => q
  | .vec qs => (qs.get? d).getD 0

/-- The default bin count of `make_hist`:
`int(t_max - t_min) if int(t_max - t_min) > 1 else 1`. -/
def defaultBins (t_min t_max : ℚ) : ℚ :=
  if 1 < pyInt (t_max - t_min) then ((pyInt (t_max - t_min) : ℤ) : ℚ) else 1

/-- The `t_bin` computation of `make_hist`: `bins[d]` when `bins` is
indexable, `bins` itself when it is a truthy scalar (Python treats the
scalar `0` as falsy), and otherwise the default bin count. -/
def pyBins (bins : Option PyNum) (t_min t_max : ℚ) (d : ℕ) : Except PyError ℚ :=
  match bins with
  | some (.vec qs) =>
      match qs.get? d with
      | some q => .ok q
      | none => .error .indexError
  | some (.scalar q) => if q = 0 then .ok (defaultBins t_min t_max) else .ok q
  | none => .ok (defaultBins t_min t_max)

/-- One axis of the histogram built by `make_hist`: the `(t_bin, t_min,
t_max)` triple appended to the ROOT constructor argument list. -/
structure AxisSpec where
  nbins : ℚ
  amin : ℚ
  amax : ℚ
  deriving Repr, DecidableEq

/-- One iteration of the `for d in range(dim)` loop of `make_hist`:
compute `t_min`, `t_max` and `t_bin` (each may raise `IndexError`), then
`if (t_min>t_max): raise ROOTException("min > max!")`. -/
def makeAxis (mins maxs : PyNum) (bins : Option PyNum) (d : ℕ) :
    Except PyError AxisSpec :=
  match pyIndex mins d with
  | .error e => .error e
  | .ok t_min =>
      match pyIndex maxs d with
      | .error e => .error e
      | .ok t_max =>
          match pyBins bins t_min t_max d with
          | .error e => .error e
          | .ok t_bin =>
              if t_min > t_max then .error (.rootException "min > max!")
              else .ok { nbins := t_bin, amin := t_min, amax := t_max }

/-- The whole `for d in range(dim)` loop of `make_hist`, collecting the
per-axis argument triples in order and propagating the first raise. -/
def buildAxes (mins maxs : PyNum) (bins : Option PyNum) :
    List ℕ → Except PyError (List AxisSpec)
  | [] => .ok []
  | d :: ds =>
      match makeAxis mins maxs bins d with
      | .error e => .error e
      | .ok a =>
          match buildAxes mins maxs bins ds with
          | .error e => .error e
          | .ok rest => .ok (a :: rest)

/-- Computes `description = des if des else name` (an absent or empty `des` is
falsy). -/
def descOf (des : Option String) (name : String) : String :=
  match des with
  | some s => if s = "" then name else s
  | none => name

/-- Models `if titles and len(titles) >= k+1: ...SetTitle(titles[k])`: the axis
title that `make_hist` sets, when any. -/
def titleAt (titles : Option (List String)) (k : ℕ) : Option String :=
  match titles with
  | some ts => if k + 1 ≤ ts.length then ts.get? k else none
  | none => none

/-- The observable result of `make_hist`: the constructor arguments of the
`TH1D`/`TH2D`/`TH3D` that is created plus the axis titles set on it. -/
structure HistSpec where
  name : String
  description : String
  axes : List AxisSpec
  xtitle : Option String
  ytitle : Option String
  ztitle : Option String
  deriving Repr, DecidableEq

/-- Model of `make_hist` from `root_utilities.py`: `dim = int(dim)` must be 1, 2 or
3 (else `ROOTException`), then the per-axis `(t_bin, t_min, t_max)`
triples are built in order (raising `ROOTException("min > max!")` on the
first axis whose effective minimum exceeds its effective maximum), and
the histogram is created with the given name, description and titles. -/
def make_hist (name : String) (mins maxs : PyNum) (titles : Option (List String))
    (bins : Option PyNum) (dim : ℚ) (des : Option String) :
    Except PyError HistSpec :=
  let dimI := pyInt dim
  if ¬(dimI = 1 ∨ dimI = 2 ∨ dimI = 3) then
    .error (.rootException "dim must between 1 & 3")
  else
    match buildAxes mins maxs bins (List.range dimI.toNat) with
    | .error e => .error e
    | .ok axes =>
        .ok { name := name, description := descOf des name, axes := axes,
              xtitle := titleAt titles 0, ytitle := titleAt titles 1,
              ztitle := titleAt titles 2 }

/-- Claim C4, evaluated on the code at the failing input: `make_hist("h",
mins=0, maxs=0, dim=1)` with `bins` not supplied has an axis difference
`0 < 1`, so the claim (following the docstring) says 10 bins should be
created, but the code's `int(t_max - t_min) if int(t_max - t_min) > 1
else 1` creates exactly 1 bin. -/
theorem make_hist_c4_failing_input :
    make_hist "h" (.scalar 0) (.scalar 0) none none 1 none =
      .ok { name := "h", description := "h",
            axes := [{ nbins := 1, amin := 0, amax := 0 }],
            xtitle := none, ytitle := none, ztitle := none } := by
  norm_num [make_hist, pyInt, buildAxes, makeAxis, pyIndex, pyBins,
    defaultBins, descOf, titleAt, List.range_succ]

/-- An indexable `make_hist` argument is long enough for every axis index
(`true` for scalars); a short indexable argument would make the Python
call ill-typed for the requested dimension (it raises `IndexError`). -/
def wellSizedB (v : PyNum) (n : ℕ) : Bool :=
  match v with
  | .scalar _ => true
  | .vec qs => n ≤ qs.length

/-- Extension of `wellSizedB` to the optional `bins` argument. -/
def wellSizedOptB (b : Option PyNum) (n : ℕ) : Bool :=
  match b with
  | some v => wellSizedB v n
  | none => true

/-- The raising condition claimed for `make_hist`: `int(dim)` is not 1, 2
or 3, or some axis `d < dim` has its effective minimum strictly above its
effective maximum. -/
def histRaiseCond (mins maxs : PyNum) (dim : ℚ) : Prop :=
  ¬(pyInt dim = 1 ∨ pyInt dim = 2 ∨ pyInt dim = 3) ∨
    ∃ d, d < (pyInt dim).toNat ∧ effAt maxs d < effAt mins d

theorem pyIndex_ok {v : PyNum} {n d : ℕ} (hv : wellSizedB v n = true)
    (hd : d < n) : pyIndex v d = .ok (effAt v d) := by
  cases v with
  | scalar q => rfl
  | vec qs =>
      simp only [wellSizedB, decide_eq_true_eq] at hv
      have hq := List.get?_eq_get (lt_of_lt_of_le hd hv)
      rw [List.get?_eq_getElem?] at hq
      simp [pyIndex, effAt, hq]

theorem pyBins_ok {b : Option PyNum} {n d : ℕ} (t_min t_max : ℚ)
    (hb : wellSizedOptB b n = true) (hd : d < n) :
    ∃ q, pyBins b t_min t_max d = .ok q := by
  cases b with
  | none => exact ⟨defaultBins t_min t_max, rfl⟩
  | some v =>
      cases v with
      | scalar q =>
          by_cases hq : q = 0
          · exact ⟨defaultBins t_min t_max, by simp [pyBins, hq]⟩
          · exact ⟨q, by simp [pyBins, hq]⟩
      | vec qs =>
          simp only [wellSizedOptB, wellSizedB, decide_eq_true_eq] at hb
          have hq := List.get?_eq_get (lt_of_lt_of_le hd hb)
          rw [List.get?_eq_getElem?] at hq
          exact ⟨qs.get ⟨d, lt_of_lt_of_le hd hb⟩, by simp [pyBins, hq]⟩

theorem makeAxis_error {mins maxs : PyNum} {bins : Option PyNum} {n d : ℕ}
    (hm : wellSizedB mins n = true) (hM : wellSizedB maxs n = true)
    (hb : wellSizedOptB bins n = true) (hd : d < n)
    (hbad : effAt maxs d < effAt mins d) :
    makeAxis mins maxs bins d = .error (.rootException "min > max!") := by
  obtain ⟨q, hq⟩ := pyBins_ok (effAt mins d) (effAt maxs d) hb hd
  simp [makeAxis, pyIndex_ok hm hd, pyIndex_ok hM hd, hq, hbad]

theorem makeAxis_ok {mins maxs : PyNum} {bins : Option PyNum} {n d : ℕ}
    (hm : wellSizedB mins n = true) (hM : wellSizedB maxs n = true)
    (hb : wellSizedOptB bins n = true) (hd : d < n)
    (hgood : ¬ effAt maxs d < effAt mins d) :
    ∃ a, makeAxis mins maxs bins d = .ok a := by
  obtain ⟨q, hq⟩ := pyBins_ok (effAt mins d) (effAt maxs d) hb hd
  refine ⟨{ nbins := q, amin := effAt mins d, amax := effAt maxs d }, ?_⟩
  simp [makeAxis, pyIndex_ok hm hd, pyIndex_ok hM hd, hq, hgood]

theorem buildAxes_ok {mins maxs : PyNum} {bins : Option PyNum} {n : ℕ}
    (hm : wellSizedB mins n = true) (hM : wellSizedB maxs n = true)
    (hb : wellSizedOptB bins n = true) :
    ∀ ds : List ℕ, (∀ d ∈ ds, d < n) →
      (∀ d ∈ ds, ¬ effAt maxs d < effAt mins d) →
      ∃ axes, buildAxes mins maxs bins ds = .ok axes := by
  intro ds
  induction ds with
  | nil => exact fun _ _ => ⟨[], rfl⟩
  | cons d ds ih =>
      intro hds hgood
      obtain ⟨a, ha⟩ := makeAxis_ok hm hM hb (hds d (by simp))
        (hgood d (by simp))
      obtain ⟨rest, hrest⟩ := ih (fun x hx => hds x (by simp [hx]))
        (fun x hx => hgood x (by simp [hx]))
      exact ⟨a :: rest, by simp [buildAxes, ha, hrest]⟩

theorem buildAxes_error {mins maxs : PyNum} {bins : Option PyNum} {n : ℕ}
    (hm : wellSizedB mins n = true) (hM : wellSizedB maxs n = true)
    (hb : wellSizedOptB bins n = true) :
    ∀ ds : List ℕ, (∀ d ∈ ds, d < n) →
      (∃ d ∈ ds, effAt maxs d < effAt mins d) →
      buildAxes mins maxs bins ds = .error (.rootException "min > max!") := by
  intro ds
  induction ds with
  | nil => rintro _ ⟨d, hd, _⟩; simp at hd
  | cons d ds ih =>
      rintro hds ⟨x, hx, hxbad⟩
      by_cases hdbad : effAt maxs d < effAt mins d
      · have := makeAxis_error hm hM hb (hds d (by simp)) hdbad
        simp [buildAxes, this]
      · obtain ⟨a, ha⟩ := makeAxis_ok hm hM hb (hds d (by simp)) hdbad
        have hx' : x ∈ ds := by
          rcases List.mem_cons.mp hx with h | h
          · exact absurd (h ▸ hxbad) hdbad
          · exact h
        have := ih (fun y hy => hds y (by simp [hy])) ⟨x, hx', hxbad⟩
        simp [buildAxes, ha, this]

/-- Claim C9: for well-sized indexable arguments, `make_hist` raises a
`ROOTException` exactly when `int(dim)` is not 1, 2 or 3 or some axis
`d < dim` has effective minimum strictly above its effective maximum, and
in every other case it returns a histogram without raising. -/
theorem make_hist_raises_iff (name : String) (mins maxs : PyNum)
    (titles : Option (List String)) (bins : Option PyNum) (dim : ℚ)
    (des : Option String)
    (hm : wellSizedB mins (pyInt dim).toNat = true)
    (hM : wellSizedB maxs (pyInt dim).toNat = true)
    (hb : wellSizedOptB bins (pyInt dim).toNat = true) :
    ((∃ msg, make_hist name mins maxs titles bins dim des =
        .error (.rootException msg)) ↔ histRaiseCond mins maxs dim) ∧
      (histRaiseCond mins maxs dim ∨
        ∃ h, make_hist name mins maxs titles bins dim des = .ok h) := by
  by_cases hdim : pyInt dim = 1 ∨ pyInt dim = 2 ∨ pyInt dim = 3
  · have hcond : histRaiseCond mins maxs dim ↔
        ∃ d, d < (pyInt dim).toNat ∧ effAt maxs d < effAt mins d := by
      simp [histRaiseCond, hdim]
    by_cases hbad : ∃ d, d < (pyInt dim).toNat ∧ effAt maxs d < effAt mins d
    · obtain ⟨d, hd, hdbad⟩ := hbad
      have herr := buildAxes_error hm hM hb (List.range (pyInt dim).toNat)
        (fun x hx => List.mem_range.mp hx)
        ⟨d, List.mem_range.mpr hd, hdbad⟩
      have hmh : make_hist name mins maxs titles bins dim des =
          .error (.rootException "min > max!") := by
        simp only [make_hist]
        rw [if_neg (not_not_intro hdim), herr]
      constructor
      · rw [hcond]
        exact ⟨fun _ => ⟨d, hd, hdbad⟩, fun _ => ⟨"min > max!", hmh⟩⟩
      · exact Or.inl (hcond.mpr ⟨d, hd, hdbad⟩)
    · obtain ⟨axes, haxes⟩ := buildAxes_ok hm hM hb
        (List.range (pyInt dim).toNat) (fun x hx => List.mem_range.mp hx)
        (fun x hx hxbad => hbad ⟨x, List.mem_range.mp hx, hxbad⟩)
      have hmh : make_hist name mins maxs titles bins dim des =
          .ok { name := name, description := descOf des name, axes := axes,
                xtitle := titleAt titles 0, ytitle := titleAt titles 1,
                ztitle := titleAt titles 2 } := by
        simp only [make_hist]
        rw [if_neg (not_not_intro hdim), haxes]
      constructor
      · rw [hcond]
        constructor
        · rintro ⟨msg, hmsg⟩
          rw [hmh] at hmsg
          exact absurd hmsg (by simp)
        · rintro hex
          exact absurd hex hbad
      · exact Or.inr ⟨_, hmh⟩
  · have hmh : make_hist name mins maxs titles bins dim des =
        .error (.rootException "dim must between 1 & 3") := by
      simp only [make_hist]
      rw [if_pos hdim]
    constructor
    · exact ⟨fun _ => Or.inl hdim, fun _ => ⟨"dim must between 1 & 3", hmh⟩⟩
    · exact Or.inl (Or.inl hdim)

/-- Witness for C9: applying `make_hist_raises_iff` at the concrete input
`make_hist("h", mins=5, maxs=4, dim=2)`, whose scalar arguments are
trivially well-sized. -/
theorem make_hist_raises_iff_witness :
    wellSizedB (.scalar 5) (pyInt 2).toNat = true ∧
      (((∃ msg, make_hist "h" (.scalar 5) (.scalar 4) none none 2 none =
          .error (.rootException msg)) ↔
            histRaiseCond (.scalar 5) (.scalar 4) 2) ∧
        (histRaiseCond (.scalar 5) (.scalar 4) 2 ∨
          ∃ h, make_hist "h" (.scalar 5) (.scalar 4) none none 2 none =
            .ok h)) :=
  ⟨rfl, make_hist_raises_iff "h" (.scalar 5) (.scalar 4) none none 2 none
    rfl rfl rfl⟩

/-- The nested Python values walked by `traverse` in `list_utilities.py`:
strings, numbers, sequences (lists/tuples) and dictionaries (modelled as
association lists in iteration order).  In Python 2, `hasattr(obj,
'keys')` holds exactly for dictionaries and `hasattr(obj, '__iter__')`
for dictionaries and sequences — in particular a `str` has neither
attribute, so it falls to the leaf case of `traverse`. -/
inductive PyObj where
  | str (s : String)
  | num (n : ℤ)
  | list (elems : List PyObj)
  | dict (entries : List (PyObj × PyObj))

mutual
/-- Model of `traverse(obj)` from `list_utilities.py` with the default
`pmode=False` (the `level` counter only affects the `pmode=True` output):
the list of items the generator yields, in order.  A dictionary takes the
`hasattr(obj, 'keys')` branch, a list the `hasattr(obj, '__iter__')`
branch, and anything else — including every string — is yielded whole. -/
def traverse : PyObj → List PyObj
  | .dict entries => traverseDict entries
  | .list elems => traverseList elems
  | .str s => [.str s]
  | .num n => [.num n]

/-- The dictionary branch of `traverse`: `for val in obj: yield val;
for subval in traverse(obj[val]): yield subval` — each key, then the
traversal of the value stored at it. -/
def traverseDict : List (PyObj × PyObj) → List PyObj
  | [] => []
  | (k, v) :: rest => k :: (traverse v ++ traverseDict rest)

/-- The sequence branch of `traverse`: `for val in obj: for subval in
traverse(val): yield subval`. -/
def traverseList : List PyObj → List PyObj
  | [] => []
  | v :: rest => traverse v ++ traverseList rest
end

/-- Projection of a yielded item to a string, when it is one. -/
def getStr : PyObj → Option String
  | .str s => some s
  | _ => none

mutual
/-- The whole strings occurring in an object at the positions `traverse`
visits: the object itself, sequence elements at any depth, and dictionary
keys and values — written from the claim, to be compared with what
`traverse` yields. -/
def strOcc : PyObj → List String
  | .str s => [s]
  | .num _ => []
  | .list es => strOccList es
  | .dict en => strOccDict en

/-- Extension of `strOcc` to the entries of a dictionary: a string key counts as one
whole occurrence, then the occurrences inside the value. -/
def strOccDict : List (PyObj × PyObj) → List String
  | [] => []
  | (k, v) :: rest =>
      (match k with | .str s => [s] | _ => []) ++ (strOcc v ++ strOccDict rest)

/-- Extension of `strOcc` to the elements of a sequence. -/
def strOccList : List PyObj → List String
  | [] => []
  | v :: rest => strOcc v ++ strOccList rest
end

mutual
theorem traverse_filterMap_getStr :
    ∀ o : PyObj, (traverse o).filterMap getStr = strOcc o
  | .str s => by simp [traverse, strOcc, getStr]
  | .num n => by simp [traverse, strOcc, getStr]
  | .list es => traverseList_filterMap_getStr es
  | .dict en => traverseDict_filterMap_getStr en

theorem traverseDict_filterMap_getStr :
    ∀ en : List (PyObj × PyObj),
      (traverseDict en).filterMap getStr = strOccDict en
  | [] => by simp [traverseDict, strOccDict]
  | (k, v) :: rest => by
      have h1 := traverse_filterMap_getStr v
      have h2 := traverseDict_filterMap_getStr rest
      cases k <;>
        simp [traverseDict, strOccDict, getStr, List.filterMap_append, h1, h2]

theorem traverseList_filterMap_getStr :
    ∀ es : List PyObj, (traverseList es).filterMap getStr = strOccList es
  | [] => by simp [traverseList, strOccList]
  | v :: rest => by
      have h1 := traverse_filterMap_getStr v
      have h2 := traverseList_filterMap_getStr rest
      simp [traverseList, strOccList, List.filterMap_append, h1, h2]
end

/-- Claim C3: `traverse` never descends into strings — the strings it
yields, in order, are exactly the whole strings occurring in the input
(the top-level object, sequence elements at any depth, dictionary keys
and values), each as a single item; no string is ever broken into its
characters. -/
theorem traverse_never_descends_into_strings (obj : PyObj) :
    (traverse obj).filterMap getStr = strOcc obj :=
  traverse_filterMap_getStr obj

theorem traverseDict_append (a b : List (PyObj × PyObj)) :
    traverseDict (a ++ b) = traverseDict a ++ traverseDict b := by
  induction a with
  | nil => simp [traverseDict]
  | cons p rest ih =>
      obtain ⟨k, v⟩ := p
      simp [traverseDict, ih]

/-- Claim C7: for a dictionary, `traverse` yields each key before the
contents stored at that key, and all of those contents before the next
key — the output decomposes, around any entry `(k, v)` at position `i`,
into the traversal of the earlier entries, then `k`, then the traversal
of `v`, then the traversal of the remaining entries. -/
theorem traverse_dict_key_order (entries : List (PyObj × PyObj)) (i : ℕ)
    (k v : PyObj) (rest : List (PyObj × PyObj))
    (h : entries.drop i = (k, v) :: rest) :
    traverse (.dict entries) =
      traverseDict (entries.take i) ++
        k :: (traverse v ++ traverseDict rest) := by
  have hsplit : entries = entries.take i ++ ((k, v) :: rest) := by
    rw [← h, List.take_append_drop]
  calc traverse (.dict entries) = traverseDict entries := rfl
    _ = traverseDict (entries.take i ++ ((k, v) :: rest)) := by
          rw [← hsplit]
    _ = traverseDict (entries.take i) ++ traverseDict ((k, v) :: rest) :=
          traverseDict_append _ _
    _ = traverseDict (entries.take i) ++
          k :: (traverse v ++ traverseDict rest) := rfl

/-- Witness for C7: applying `traverse_dict_key_order` to the concrete
dictionary `{'a': 1, 'b': [2, 3]}` at entry position 1. -/
theorem traverse_dict_key_order_witness :
    ([(PyObj.str "a", PyObj.num 1),
      (PyObj.str "b", PyObj.list [PyObj.num 2, PyObj.num 3])].drop 1 =
        [(PyObj.str "b", PyObj.list [PyObj.num 2, PyObj.num 3])]) ∧
      traverse (.dict [(PyObj.str "a", PyObj.num 1),
          (PyObj.str "b", PyObj.list [PyObj.num 2, PyObj.num 3])]) =
        traverseDict ([(PyObj.str "a", PyObj.num 1),
            (PyObj.str "b", PyObj.list [PyObj.num 2, PyObj.num 3])].take 1) ++
          PyObj.str "b" ::
            (traverse (PyObj.list [PyObj.num 2, PyObj.num 3]) ++
              traverseDict []) :=
  ⟨rfl, traverse_dict_key_order _ 1 _ _ _ rfl⟩

mutual
/-- Python `==` on the modelled values: equal strings, equal numbers, and
elementwise equality for sequences and dictionary entry lists.  (Python
compares dictionaries order-insensitively; the claims below only ever
compare string and number keys, for which this entrywise model agrees.) -/
def pyEq : PyObj → PyObj → Bool
  | .str a, .str b => a == b
  | .num a, .num b => a == b
  | .list a, .list b => pyEqList a b
  | .dict a, .dict b => pyEqDict a b
  | _, _ => false

/-- Extension of `pyEq` to sequences, elementwise. -/
def pyEqList : List PyObj → List PyObj → Bool
  | [], [] => true
  | a :: ta, b :: tb => pyEq a b && pyEqList ta tb
  | _, _ => false

/-- Extension of `pyEq` to dictionary entry lists, entrywise. -/
def pyEqDict : List (PyObj × PyObj) → List (PyObj × PyObj) → Bool
  | [], [] => true
  | (ka, va) :: ta, (kb, vb) :: tb =>
      pyEq ka kb && (pyEq va vb && pyEqDict ta tb)
  | _, _ => false
end

/-- A Python dictionary, as an association list in insertion order. -/
abbrev PyDict := List (PyObj × PyObj)

/-- Python `d[k] = v`: replace the value of the first entry whose key
equals `k` (the stored key object is kept), else append a new entry. -/
def dictSet (d : PyDict) (k v : PyObj) : PyDict :=
  match d with
  | [] => [(k, v)]
  | (k0, v0) :: rest =>
      if pyEq k0 k then (k0, v) :: rest else (k0, v0) :: dictSet rest k v

/-- Python `obj[k] = v` on a modelled value: dictionaries update their
entry; list assignment needs an integer index in range (a negative index
counts from the end, anything else is a `TypeError`/`IndexError`);
strings and numbers do not support item assignment and raise
`TypeError`. -/
def pySetItem (obj k v : PyObj) : Except PyError PyObj :=
  match obj with
  | .dict entries => .ok (.dict (dictSet entries k v))
  | .list es =>
      match k with
      | .num n =>
          let m : ℤ := if n < 0 then n + es.length else n
          if 0 ≤ m ∧ m.toNat < es.length then .ok (.list (es.set m.toNat v))
          else .error .indexError
      | _ => .error .typeError
  | .str _ => .error .typeError
  | .num _ => .error .typeError

/-- Model of `add_as_sub_dict(parent_dict, key, subkey, subval)` from
`list_utilities.py`, returning the raised exception (if any) together
with the state of `parent_dict` after the call: when `key` is not among
the keys, `parent_dict[key] = {subkey: subval}`; otherwise
`parent_dict[key][subkey] = subval` mutates the stored value, and any
exception from that item assignment propagates with `parent_dict` left
unchanged. -/
def add_as_sub_dict (parent : PyDict) (key subkey subval : PyObj) :
    Option PyError × PyDict :=
  match parent.find? (fun p => pyEq p.1 key) with
  | none => (none, dictSet parent key (.dict [(subkey, subval)]))
  | some (_, v) =>
      match pySetItem v subkey subval with
      | .ok v2 => (none, dictSet parent key v2)
      | .error e => (some e, parent)

/-- A value on which Python item assignment is not supported at all: a
string or a number. -/
def notIndexable : PyObj → Bool
  | .str _ => true
  | .num _ => true
  | _ => false

theorem dictSet_absent (d : PyDict) (k v : PyObj)
    (h : d.find? (fun p => pyEq p.1 k) = none) :
    dictSet d k v = d ++ [(k, v)] := by
  induction d with
  | nil => rfl
  | cons p rest ih =>
      obtain ⟨k0, v0⟩ := p
      rw [List.find?_eq_none] at h
      have hk0 : pyEq k0 k = false := by
        simpa using h (k0, v0) (by simp)
      have hrest : rest.find? (fun p => pyEq p.1 k) = none := by
        rw [List.find?_eq_none]
        exact fun x hx => h x (by simp [hx])
      simp [dictSet, hk0, ih hrest]

/-- Claim C8: a call of `add_as_sub_dict` with an absent `key` installs
`{subkey: subval}` at `key` (appended, the other entries untouched)
without raising; a call whose `key` is present with a value that is not
indexable raises `TypeError` and leaves `parent_dict` unchanged. -/
theorem add_as_sub_dict_spec (parent : PyDict) (key subkey subval : PyObj) :
    (parent.find? (fun p => pyEq p.1 key) = none →
        add_as_sub_dict parent key subkey subval =
          (none, parent ++ [(key, .dict [(subkey, subval)])])) ∧
      (∀ k v, parent.find? (fun p => pyEq p.1 key) = some (k, v) →
        notIndexable v = true →
        add_as_sub_dict parent key subkey subval =
          (some .typeError, parent)) := by
  constructor
  · intro h
    simp [add_as_sub_dict, h, dictSet_absent parent key _ h]
  · intro k v h hNI
    have hset : pySetItem v subkey subval = .error .typeError := by
      cases v <;> simp_all [notIndexable, pySetItem]
    simp [add_as_sub_dict, h, hset]

/-- Witness for C8: applying `add_as_sub_dict_spec` to the empty
dictionary (absent key) and to `{'a': 'x'}` with key `'a'` (present, but
the stored value `'x'` is a string, so item assignment on it raises
`TypeError`). -/
theorem add_as_sub_dict_spec_witness :
    ([] : PyDict).find? (fun p => pyEq p.1 (PyObj.str "a")) = none ∧
      add_as_sub_dict [] (PyObj.str "a") (PyObj.str "b") (PyObj.str "c") =
        (none, [] ++ [(PyObj.str "a",
          PyObj.dict [(PyObj.str "b", PyObj.str "c")])]) ∧
      ([(PyObj.str "a", PyObj.str "x")].find?
          (fun p => pyEq p.1 (PyObj.str "a")) =
        some (PyObj.str "a", PyObj.str "x")) ∧
      notIndexable (PyObj.str "x") = true ∧
      add_as_sub_dict [(PyObj.str "a", PyObj.str "x")] (PyObj.str "a")
          (PyObj.str "b") (PyObj.str "c") =
        (some .typeError, [(PyObj.str "a", PyObj.str "x")]) :=
  ⟨rfl, (add_as_sub_dict_spec [] _ _ _).1 rfl, rfl, rfl,
    (add_as_sub_dict_spec [(PyObj.str "a", PyObj.str "x")]
      (PyObj.str "a") (PyObj.str "b") (PyObj.str "c")).2
        (PyObj.str "a") (PyObj.str "x") rfl rfl⟩

/-- Model of `random.choice(seq)` with the randomness supplied as an oracle number
`r`: element `r mod len(seq)` (as `r` ranges over `ℕ` this reaches every
element, matching a uniform draw); on an empty sequence `random.choice`
raises `IndexError`, modelled as `none`. -/
def randomChoice (char_set : List Char) (r : ℕ) : Option Char :=
  char_set.get? (r % char_set.length)

/-- The generator expression of `gen_password`, drawing one character per
index, left to right, with the first `IndexError` (empty `char_set`)
propagating. -/
def joinChoices (char_set : List Char) (rand : ℕ → ℕ) :
    List ℕ → Option (List Char)
  | [] => some []
  | i :: l =>
      match randomChoice char_set (rand i) with
      | none => none
      | some c =>
          match joinChoices char_set rand l with
          | none => none
          | some cs => some (c :: cs)

/-- Model of `gen_password(length, char_set)` from `password_gen.py`:
`"".join(random.choice(char_set) for x in range(length))`, with the
successive random draws supplied by the oracle `rand`. -/
def gen_password (length : ℕ) (char_set : List Char) (rand : ℕ → ℕ) :
    Option String :=
  (joinChoices char_set rand (List.range length)).map (fun cs => String.mk cs)

theorem joinChoices_total (char_set : List Char) (h : char_set ≠ [])
    (rand : ℕ → ℕ) :
    ∀ l : List ℕ,
      ∃ cs, joinChoices char_set rand l = some cs ∧
        cs.length = l.length ∧ ∀ c ∈ cs, c ∈ char_set := by
  intro l
  induction l with
  | nil => exact ⟨[], rfl, rfl, by simp⟩
  | cons i l ih =>
      obtain ⟨cs, hcs, hlen, hmem⟩ := ih
      have hlt : rand i % char_set.length < char_set.length :=
        Nat.mod_lt _ (List.length_pos.mpr h)
      have hc := List.get?_eq_get hlt
      refine ⟨char_set.get ⟨rand i % char_set.length, hlt⟩ :: cs, ?_, ?_, ?_⟩
      · rw [List.get?_eq_getElem?] at hc
        simp [joinChoices, randomChoice, hc, hcs]
      · simp [hlen]
      · intro c hcmem
        rcases List.mem_cons.mp hcmem with h1 | h1
        · exact h1 ▸ List.get_mem _ _ _
        · exact hmem c h1

/-- Claim C5: for every length `n` and non-empty character set,
`gen_password(n, char_set)` returns a string of exactly `n` characters,
each drawn from `char_set`, whatever the random draws are. -/
theorem gen_password_spec (n : ℕ) (char_set : List Char) (rand : ℕ → ℕ)
    (h : char_set ≠ []) :
    ∃ s, gen_password n char_set rand = some s ∧ s.length = n ∧
      ∀ c ∈ s.data, c ∈ char_set := by
  obtain ⟨cs, hcs, hlen, hmem⟩ :=
    joinChoices_total char_set h rand (List.range n)
  refine ⟨String.mk cs, ?_, ?_, ?_⟩
  · simp [gen_password, hcs]
  · show cs.length = n
    simp [hlen]
  · exact hmem

/-- Witness for C5: applying `gen_password_spec` at length 3 over the
two-character set `['a', 'b']` with the identity random oracle. -/
theorem gen_password_spec_witness :
    (['a', 'b'] ≠ ([] : List Char)) ∧
      ∃ s, gen_password 3 ['a', 'b'] (fun i => i) = some s ∧
        s.length = 3 ∧ ∀ c ∈ s.data, c ∈ ['a', 'b'] :=
  ⟨by decide, gen_password_spec 3 ['a', 'b'] (fun i => i) (by decide)⟩

/-- Model of `increment_counter_attribute(obj, attribute_name, init_val)` from
`general_utilities.py`: the value it stores into the attribute, as a
function of the attribute's previous state (`none` when the attribute
does not yet exist on the object): `init_val` when absent, `previous + 1`
when present (`setattr` then makes the attribute present either way). -/
def increment_counter_attribute (st : Option ℤ) (init_val : ℤ) : ℤ :=
  match st with
  | some v => v + 1
  | none => init_val

/-- The attribute's state after `n` successive calls of
`increment_counter_attribute` with the same `init_val`, starting from
state `st`. -/
def incrementCalls (n : ℕ) (init_val : ℤ) (st : Option ℤ) : Option ℤ :=
  match n with
  | 0 => st
  | n + 1 =>
      incrementCalls n init_val (some (increment_counter_attribute st init_val))

theorem incrementCalls_some (init_val : ℤ) :
    ∀ (m : ℕ) (v : ℤ), incrementCalls m init_val (some v) = some (v + m)
  | 0, v => by simp [incrementCalls]
  | m + 1, v => by
      simp only [incrementCalls, increment_counter_attribute]
      rw [incrementCalls_some init_val m (v + 1)]
      congr 1
      push_cast
      ring

/-- Claim C10: a single `increment_counter_attribute` call stores
`init_val` when the attribute is absent and `previous + 1` when present,
so after `n ≥ 1` calls starting from absence the attribute holds
`init_val + n - 1` — the first call does not count as an increment. -/
theorem increment_counter_attribute_spec (init_val : ℤ) :
    increment_counter_attribute none init_val = init_val ∧
      (∀ v, increment_counter_attribute (some v) init_val = v + 1) ∧
      ∀ n : ℕ, 1 ≤ n →
        incrementCalls n init_val none = some (init_val + n - 1) := by
  refine ⟨rfl, fun v => rfl, fun n hn => ?_⟩
  obtain ⟨m, rfl⟩ : ∃ m, n = m + 1 := ⟨n - 1, (Nat.succ_pred_eq_of_pos hn).symm⟩
  show incrementCalls m init_val (some init_val) = _
  rw [incrementCalls_some init_val m init_val]
  congr 1
  push_cast
  ring

/-- Witness for C10: applying `increment_counter_attribute_spec` with
`init_val = 5` and `n = 3` calls — the attribute ends at `5 + 3 - 1`. -/
theorem increment_counter_attribute_spec_witness :
    increment_counter_attribute none 5 = 5 ∧ (1 : ℕ) ≤ 3 ∧
      incrementCalls 3 5 none = some (5 + (3 : ℕ) - 1) :=
  ⟨(increment_counter_attribute_spec 5).1, by decide,
    (increment_counter_attribute_spec 5).2.2 3 (by decide)⟩

/-- The observable canvas naming of `get_canvas_with_hists` from
`root_utilities.py`: the function first runs
`increment_counter_attribute(get_canvas_with_hists, 'canvas_id')` on its
own function attribute (state `none` before the first ever call) and then
uses `canvas_name + str(get_canvas_with_hists.canvas_id)` as the name of
the canvas it creates.  Returns that name with the new attribute
state. -/
def get_canvas_with_hists_name (canvas_name : String) (st : Option ℤ) :
    String × Option ℤ :=
  let canvas_id := increment_counter_attribute st 0
  (canvas_name ++ toString canvas_id, some canvas_id)

/-- The `canvas_id` attribute state after `n` calls of
`get_canvas_with_hists` (only the number of calls matters). -/
def canvasCalls (canvas_name : String) : ℕ → Option ℤ
  | 0 => none
  | n + 1 => (get_canvas_with_hists_name canvas_name (canvasCalls canvas_name n)).2

/-- Counterexample to claim C2: two calls of `get_canvas_with_hists` with
identical arguments do not have identical observable results — starting
from the initial state, the first call with `canvas_name = "c"` names its
canvas `"c0"` while the next call with the same argument names it
`"c1"`: the result depends on how many calls were made before, through
the persistent `canvas_id` function attribute. -/
theorem get_canvas_with_hists_not_stateless :
    (get_canvas_with_hists_name "c" (canvasCalls "c" 0)).1 = "c0" ∧
      (get_canvas_with_hists_name "c" (canvasCalls "c" 1)).1 = "c1" ∧
      (get_canvas_with_hists_name "c" (canvasCalls "c" 0)).1 ≠
        (get_canvas_with_hists_name "c" (canvasCalls "c" 1)).1 := by
  refine ⟨rfl, rfl, ?_⟩
  decide

theorem canvasCalls_succ (canvas_name : String) :
    ∀ n : ℕ, canvasCalls canvas_name (n + 1) = some n
  | 0 => rfl
  | n + 1 => by
      have ih := canvasCalls_succ canvas_name n
      show (get_canvas_with_hists_name canvas_name
        (canvasCalls canvas_name (n + 1))).2 = some ((n + 1 : ℕ) : ℤ)
      rw [ih]
      show some ((n : ℤ) + 1) = some ((n + 1 : ℕ) : ℤ)
      norm_num

/-- Amended claim C2: `get_canvas_with_hists` keeps persistent state in
its `canvas_id` function attribute; the `k`-th call (1-based, attribute
initially absent) names its canvas `canvas_name + str(k - 1)`, so
equal-argument calls made after different call histories receive distinct
canvas names, while the rebinning helpers and `traverse` (pure functions
above) indeed keep none. -/
theorem get_canvas_with_hists_canvas_names (canvas_name : String) (k : ℕ)
    (hk : 1 ≤ k) :
    (get_canvas_with_hists_name canvas_name (canvasCalls canvas_name (k - 1))).1 =
      canvas_name ++ toString ((k : ℤ) - 1) := by
  obtain ⟨m, rfl⟩ : ∃ m, k = m + 1 := ⟨k - 1, (Nat.succ_pred_eq_of_pos hk).symm⟩
  cases m with
  | zero =>
      show canvas_name ++ toString ((0 : ℤ)) =
        canvas_name ++ toString (((0 + 1 : ℕ) : ℤ) - 1)
      norm_num
  | succ n =>
      show (get_canvas_with_hists_name canvas_name
        (canvasCalls canvas_name (n + 1))).1 =
          canvas_name ++ toString (((n + 1 + 1 : ℕ) : ℤ) - 1)
      rw [canvasCalls_succ canvas_name n]
      show canvas_name ++ toString ((n : ℤ) + 1) =
        canvas_name ++ toString (((n + 1 + 1 : ℕ) : ℤ) - 1)
      have harg : ((n : ℤ) + 1) = ((n + 1 + 1 : ℕ) : ℤ) - 1 := by
        push_cast
        ring
      rw [harg]

/-- Witness for the amended claim C2: the second call (with the same
argument `"c"`) names its canvas `"c" + str(2 - 1)`. -/
theorem get_canvas_with_hists_canvas_names_witness :
    (1 : ℕ) ≤ 2 ∧
      (get_canvas_with_hists_name "c" (canvasCalls "c" (2 - 1))).1 =
        "c" ++ toString ((2 : ℤ) - 1) :=
  ⟨by decide, get_canvas_with_hists_canvas_names "c" 2 (by decide)⟩

/-- A named object stored in a ROOT `TFile`, as read through one of the
file's keys. -/
structure TObj where
  name : String

/-- Model of `get_contents_of_tfile_as_dict(folder, key_func)` from
`root_utilities.py`.  The body's first statement is
`in_file = TFile(filename, "READ")`, but no name `filename` is bound
anywhere (the parameter is called `folder` and the module has no such
global), so every call raises `NameError` there; even if it got further,
the final `return res, in_tfile` uses the likewise-unbound name
`in_tfile` (the local is `in_file`).  The two unbound lookups are
modelled by `Option` scopes that are `none`; `openTFile` supplies the
objects a `TFile` would list, so the intended dictionary construction is
visible in the (dead) bound branch. -/
def get_contents_of_tfile_as_dict (folder : String)
    (openTFile : String → List TObj) (key_func : TObj → String) :
    Except PyError (List (String × TObj) × List TObj) :=
  let filenameInScope : Option String := none
  match filenameInScope with
  | none => .error .nameError
  | some filename =>
      let in_file := openTFile filename
      let res := in_file.foldl (fun acc obj => acc ++ [(key_func obj, obj)]) []
      let inTfileInScope : Option (List TObj) := none
      match inTfileInScope with
      | none => .error .nameError
      | some in_tfile => .ok (res, in_tfile)

/-- Claim C6, evaluated on the code: for every folder name, file contents
and key function, `get_contents_of_tfile_as_dict` raises `NameError`
(its body reads the unbound name `filename`) instead of returning the
promised dictionary/TFile pair without error. -/
theorem get_contents_of_tfile_as_dict_always_raises (folder : String)
    (openTFile : String → List TObj) (key_func : TObj → String) :
    get_contents_of_tfile_as_dict folder openTFile key_func =
      .error .nameError := rfl

end SitePackages
